import Mathlib

/-!
Verification development for the StardewSaveManager repository
(`sdsm.py`, `sdsm_gui.py`): a shallow embedding of its backup/restore
engine in Lean, with theorems about the archive naming scheme, slot
lookup, season parsing, playtime rounding and the backup/restore
round-trip.

Byte strings are modelled as `List Nat`; the filesystem relevant to the
engine (the children of the `Saves` root and of the `Backup` root) is
modelled explicitly.  Machine integers are `Int`/`Nat` (Python integers
are unbounded, so no wrap-around is modelled); fallible code returns
`Option`/`Except`.
-/

namespace Sdsm

/-! ## Formatting primitives (Python f-strings and `str`) -/

/-- `str(i)` for a Python `int`. -/
def intStr : Int → String
  | Int.ofNat m => Nat.repr m
  | Int.negSucc m => "-" ++ Nat.repr (m + 1)

/-- `f"{n:02d}"` for a non-negative Python int held as `Nat`:
zero-pad to a minimum width of 2. -/
def pad2 (n : Nat) : String :=
  if n < 10 then "0" ++ Nat.repr n else Nat.repr n

/-- `f"{y:04d}"`: zero-pad to a minimum width of 4 (the year field of
`date.isoformat()`). -/
def pad4 (n : Nat) : String :=
  if n < 10 then "000" ++ Nat.repr n
  else if n < 100 then "00" ++ Nat.repr n
  else if n < 1000 then "0" ++ Nat.repr n
  else Nat.repr n

/-- `f"{i:02d}"` for a Python `int` (sign included in the width). -/
def intPad2 (n : Int) : String :=
  if 0 ≤ n ∧ n < 10 then "0" ++ intStr n else intStr n

/-- A wall-clock date as produced by `datetime.date` (`date.today()`);
Python guarantees `1 ≤ y ≤ 9999`, `1 ≤ m ≤ 12`, `1 ≤ d ≤ 31`. -/
structure WallDate where
  y : Nat
  m : Nat
  d : Nat
deriving DecidableEq, Repr

/-- `date.isoformat()`: `YYYY-MM-DD`, zero-padded. -/
def isoDate (t : WallDate) : String :=
  pad4 t.y ++ "-" ++ pad2 t.m ++ "-" ++ pad2 t.d

/-! ## GameTime (`sdsm_gui.GameTime`) and the season codecs -/

/-- `GameTime.SEASONS` (`sdsm_gui.py`): the 0-based season name list. -/
def seasonNames : List String := ["Spring", "Summer", "Fall", "Winter"]

/-- Python list subscription `l[i]` with an `int` index: non-negative
indices are counted from the front, negative indices from the back;
out-of-range raises `IndexError` (modelled as `none`). -/
def pyListGet {α : Type} (l : List α) (i : Int) : Option α :=
  if 0 ≤ i then l[i.toNat]?
  else if 0 ≤ (l.length : Int) + i then l[((l.length : Int) + i).toNat]?
  else none

/-- The in-game date value built by `GameTime.__init__`: `year`,
`season_no` and `day` are `int(...)` of the constructor arguments.  The
derived representations (`season`, `short`, `long`) are functions of
these three fields. -/
structure GameTime where
  year : Int
  seasonNo : Int
  day : Int
deriving DecidableEq, Repr

/-- `GameTime.__init__`: `self.season = self.SEASONS[self.season_no]`
raises `IndexError` when the index is invalid for the 4-element list,
so construction fails (`none`) exactly when the subscript does. -/
def mkGameTime (year seasonNo day : Int) : Option GameTime :=
  (pyListGet seasonNames seasonNo).map fun _ => ⟨year, seasonNo, day⟩

/-- `self.season = self.SEASONS[self.season_no]` (total on values built
by `mkGameTime`). -/
def GameTime.season (g : GameTime) : String :=
  (pyListGet seasonNames g.seasonNo).getD ""

/-- `self.short = f"{self.year:02d}-{self.season_no + 1}-{self.day:02d}"`. -/
def GameTime.short (g : GameTime) : String :=
  intPad2 g.year ++ "-" ++ intStr (g.seasonNo + 1) ++ "-" ++ intPad2 g.day

/-- `self.long = f"Day {self.day} of {self.season}, Year {self.year}"`. -/
def GameTime.long (g : GameTime) : String :=
  "Day " ++ intStr g.day ++ " of " ++ g.season ++ ", Year " ++ intStr g.year

/-- `SEASONS` (`sdsm.py`): the season-name → season-digit dict
`{"spring": "1", "summer": "2", "fall": "3", "winter": "4"}`; a missing
key raises `KeyError` (modelled as `none`). -/
def seasonDigit (s : String) : Option String :=
  if s = "spring" then some "1"
  else if s = "summer" then some "2"
  else if s = "fall" then some "3"
  else if s = "winter" then some "4"
  else none

/-- `sdsm.game_date`: `f"{year:02d}-{SEASONS[season]}-{day:02d}"`, with
the `year`/`currentSeason`/`dayOfMonth` fields already extracted from
the save-state XML. -/
def gameDateStr (year : Int) (season : String) (day : Int) : Option String :=
  (seasonDigit season).map fun sd => intPad2 year ++ "-" ++ sd ++ "-" ++ intPad2 day

/-- The archive filename derived when no explicit name is given:
`f"{date.today().isoformat()} {game_date}.zip"` (both sources build
exactly this string). -/
def archiveName (t : WallDate) (g : GameTime) : String :=
  isoDate t ++ " " ++ g.short ++ ".zip"

/-! ## Chronological order on `(creation date, game time)` pairs -/

/-- Chronological (lexicographic) strict order on wall-clock dates. -/
def dateLT (a b : WallDate) : Prop :=
  a.y < b.y ∨ (a.y = b.y ∧ (a.m < b.m ∨ (a.m = b.m ∧ a.d < b.d)))

/-- Chronological (lexicographic) strict order on in-game dates:
year, then season, then day. -/
def gtLT (a b : GameTime) : Prop :=
  a.year < b.year ∨ (a.year = b.year ∧
    (a.seasonNo < b.seasonNo ∨ (a.seasonNo = b.seasonNo ∧ a.day < b.day)))

/-- Chronological strict order on `(creation date, game time)` pairs. -/
def chronLT (a b : WallDate × GameTime) : Prop :=
  dateLT a.1 b.1 ∨ (a.1 = b.1 ∧ gtLT a.2 b.2)

instance (a b : WallDate) : Decidable (dateLT a b) :=
  inferInstanceAs (Decidable (_ ∨ _))

instance (a b : GameTime) : Decidable (gtLT a b) :=
  inferInstanceAs (Decidable (_ ∨ _))

instance (a b : WallDate × GameTime) : Decidable (chronLT a b) :=
  inferInstanceAs (Decidable (_ ∨ _))

/-! ## Playtime (`sdsm_gui.played_time`) -/

/-- Round-half-to-even of the quotient `a / b` (for `b > 0`): the tie
rule used both by IEEE-754 round-to-nearest-even (applied on the
significand grid) and by Python 3 `round`. -/
def rheDiv (a b : Nat) : Nat :=
  if 2 * (a % b) < b then a / b
  else if b < 2 * (a % b) then a / b + 1
  else if a / b % 2 = 0 then a / b else a / b + 1

/-- `⌊log2 n⌋` by structural recursion on a fuel argument (exact for
`1 ≤ n < 2 ^ fuel`). -/
def log2floorAux : Nat → Nat → Nat
  | 0, _ => 0
  | fuel + 1, n => if n ≤ 1 then 0 else log2floorAux fuel (n / 2) + 1

/-- `⌊log2 n⌋`, exact for `1 ≤ n < 2 ^ 1100` — enough for every
exponent a finite double can have; beyond the fuel the result still
lands in the overflow region of `pyFloatRoundDiv1000` below. -/
def log2floor (n : Nat) : Nat := log2floorAux 1100 n

/-- `round(ms / 1000)` with `ms / 1000` computed in IEEE-754 double
precision, as Python evaluates it (`int / int` is a correctly rounded
double division, and `round` on the resulting float rounds its
exactly-known dyadic value half-to-even to an integer):

* `128 * ms / 125 = 1024 * (ms / 1000)`, so
  `E = ⌊log2 (128 * ms / 125)⌋` makes `e = E - 10` the binade exponent
  of the true quotient (for `ms ≥ 1` the quotient is `≥ 1/1000 > 2⁻¹⁰`,
  always a normal double);
* the double is the true quotient rounded half-to-even onto the grid
  `2 ^ (e - 52)` (the significand step of its binade, covering the
  carry to `2 ^ (e+1)`);
* for `e ≤ 52` (`E ≤ 62`) the grid step is `2 ^ -(52 - e)` and
  `round` of the dyadic value is a second half-even rounding; for
  `e > 52` the double is already a whole number of seconds;
* CPython raises `OverflowError` when the rounded quotient reaches
  `2 ^ 1024`: `e ≥ 1024`, or `e = 1023` with the significand carrying
  to `2 ^ 53`; modelled as `none`. -/
def pyFloatRoundDiv1000 (ms : Nat) : Option Nat :=
  if ms = 0 then some 0
  else
    let E := log2floor (128 * ms / 125)
    if E ≤ 62 then
      some (rheDiv (rheDiv (ms * 2 ^ (62 - E)) 1000) (2 ^ (62 - E)))
    else
      let m := rheDiv ms (1000 * 2 ^ (E - 62))
      if 1034 ≤ E ∨ (E = 1033 ∧ m = 2 ^ 53) then none
      else some (m * 2 ^ (E - 62))

/-- `played_time`: `timedelta(seconds=round(ms / 1000))`, returned as
the whole number of seconds of the duration (`none` on
`OverflowError`). -/
def playedTime (ms : Nat) : Option Nat := pyFloatRoundDiv1000 ms

/-! ## Filesystem model

Only the parts of the filesystem the engine touches are modelled: the
children of the `Saves` root and the children of the `Backup` root.
A file's content is an opaque byte string. -/

/-- File contents as a byte string. -/
abbrev Bytes := List Nat

/-- The files of a directory, as an association list
(name, content) in directory order. -/
abbrev Files := List (String × Bytes)

/-- A zip archive: its two-component state is its entry list
(entry name, entry content) in write order. -/
abbrev Archives := List (String × Files)

/-- A child of the `Saves` root. -/
structure SlotDir where
  name : String
  isDir : Bool
  files : Files
deriving DecidableEq, Repr

/-- A child of the `Backup` root: `archives` maps archive filename to
the archive's entry list. -/
structure BackupDir where
  name : String
  isDir : Bool
  archives : Archives
deriving DecidableEq, Repr

/-- The filesystem as the engine sees it. -/
structure FS where
  saves : List SlotDir
  backups : List BackupDir
deriving DecidableEq, Repr

deriving instance DecidableEq for Except

/-- The failures the engine can raise (Python exceptions). -/
inductive Err where
  /-- `ValueError` from `save`/`restore`: no directory matches the slot. -/
  | slotNotFound
  /-- `IndexError` from `sorted(saves)[0]` on an empty listing. -/
  | indexError
  /-- Metadata file missing or unreadable. -/
  | metadataError
  /-- Season name/index outside the fixed set (`KeyError`/`IndexError`). -/
  | invalidSeason
  /-- Missing save-state/metadata file at archive-write time. -/
  | ioFailure
deriving DecidableEq, Repr

/-! ## Slot lookup (`sdsm.save` lines 24-26, `sdsm.restore` lines 40-42) -/

/-- The glob pattern `f"{slot_name}_*"` as a name predicate: the name
starts with the logical name followed by `_` (for logical names free of
glob metacharacters). -/
def slotMatch (slot name : String) : Bool := (slot ++ "_").data.isPrefixOf name.data

/-- `next((d for d in root.glob(f"{slot_name}_*") if d.is_dir()), None)`
over the `Saves` root. -/
def findSaveSlot (dirs : List SlotDir) (slot : String) : Option SlotDir :=
  dirs.find? fun d => d.isDir && slotMatch slot d.name

/-- The same lookup over the `Backup` root. -/
def findBackupSlot (dirs : List BackupDir) (slot : String) : Option BackupDir :=
  dirs.find? fun d => d.isDir && slotMatch slot d.name

/-! ## Restore engine (`sdsm.restore` / `sdsm._restore`,
`sdsm_gui.Save.restore`) -/

/-- Association-list write: overwrite the first binding of the name if
present (all duplicates, which a real directory cannot hold, are
overwritten), else append. -/
def setEntry {β : Type} (l : List (String × β)) (k : String) (v : β) :
    List (String × β) :=
  if l.any fun e => e.1 = k then
    l.map fun e => if e.1 = k then (k, v) else e
  else l ++ [(k, v)]

/-- Association-list read (first binding). -/
def getEntry {β : Type} (l : List (String × β)) (k : String) : Option β :=
  (l.find? fun e => e.1 = k).map fun e => e.2

/-- Writing all entries of an archive into a directory, in order
(`ZipFile.extractall` overwrites existing files of the same name). -/
def writeAll (fs : Files) (es : Files) : Files :=
  es.foldl (fun acc e => setEntry acc e.1 e.2) fs

/-- The files of the `Saves`-root child named `p` (a missing or empty
directory both read as no files). -/
def getSaveFiles (fs : FS) (p : String) : Files :=
  ((fs.saves.find? fun d => d.name = p).map fun d => d.files).getD []

/-- `sdsm._restore` / `sdsm_gui.Save.restore`: extract all entries of
the archive into `Saves/<archive parent dir name>`, creating the
directory when absent.  The destination is derived only from the
archive's location (its parent directory name); there is no destination
parameter. -/
def restoreArchive (fs : FS) (parentName : String) (entries : Files) : FS :=
  if fs.saves.any fun d => d.name = parentName then
    { fs with saves := fs.saves.map fun d =>
        if d.name = parentName then { d with files := writeAll d.files entries } else d }
  else { fs with saves := fs.saves ++ [⟨parentName, true, writeAll [] entries⟩] }

/-- `saves = bu_dir.glob("*.zip")`: keep the archives whose filename
ends in `.zip`. -/
def zipArchives (as : Archives) : Archives :=
  as.filter fun a => ".zip".data.isSuffixOf a.1.data

/-- `sorted(saves)`: Python sorts the paths (all in one directory, so
by filename) ascending. -/
def sortArchives (as : Archives) : Archives :=
  as.insertionSort fun a b => a.1 ≤ b.1

/-- `sdsm.restore(slot_name, file_name)`.  Returns the updated
filesystem and which archive filename was restored (`none` when the
function returned without restoring anything: a named file that is not
in the listing falls through the `elif` silently). -/
def sdsmRestore (fs : FS) (slot : String) (fileName : Option String) :
    Except Err (FS × Option String) :=
  match findBackupSlot fs.backups slot with
  | none => .error .slotNotFound
  | some bd =>
    let saves := zipArchives bd.archives
    match fileName with
    | none =>
      match sortArchives saves with
      | [] => .error .indexError
      | a :: _ => .ok (restoreArchive fs bd.name a.2, some a.1)
    | some f =>
      match saves.find? fun a => a.1 = f with
      | some a => .ok (restoreArchive fs bd.name a.2, some a.1)
      | none => .ok (fs, none)

/-! ## Backup engine (`sdsm_gui.Farm.save`) -/

/-- Content of file `file` inside the `Saves`-root child `dir`. -/
def lookupSaveFile (fs : FS) (dir file : String) : Option Bytes :=
  (fs.saves.find? fun d => d.name = dir).bind fun d => getEntry d.files file

/-- The archive named `file` inside the `Backup`-root child `dir`. -/
def lookupArchive (fs : FS) (dir file : String) : Option Files :=
  (fs.backups.find? fun d => d.name = dir).bind fun d => getEntry d.archives file

/-- `target_dir.mkdir(parents=True, exist_ok=True)`. -/
def ensureBackupDir (fs : FS) (dir : String) : FS :=
  if fs.backups.any fun d => d.name = dir then fs
  else { fs with backups := fs.backups ++ [⟨dir, true, []⟩] }

/-- `file_path.touch()` + `ZipFile(file_path, mode="w")` + two
`zf.write` calls: (re)create the archive with exactly these entries. -/
def writeBackupArchive (fs : FS) (dir name : String) (es : Files) : FS :=
  { fs with backups := fs.backups.map fun d =>
      if d.name = dir then { d with archives := setEntry d.archives name es } else d }

/-- The fields of `SaveGameInfo` that `GameTime.from_savegame` reads
(`yearForSaveGame`, `seasonForSaveGame`, `dayOfMonthForSaveGame`),
already converted by `int(...)`. -/
structure SaveGameMeta where
  year : Int
  seasonNo : Int
  day : Int
deriving DecidableEq, Repr

/-- `sdsm_gui.Farm.save(target_dir, file_name)`.

`decode` stands for the XML layer (`ET.parse` + `root.find(...)`): it
extracts the three `...ForSaveGame` fields from the raw bytes of
`SaveGameInfo`, returning `none` when the document is missing a field
or malformed.  `fullName` is the slot's full directory name (the `Farm`
was built from `Saves/<fullName>`); `targetDir` is modelled as the name
of a `Backup`-root child, defaulting to the slot's backup directory
(`Backup/<fullName>`).  `fileName = none` models calling `save()`
without the argument (Python default `""`); the source then evaluates
`file_name or f"{date.today().isoformat()} {self.game_date}.zip"`, so
the empty string falls back to the derived name.  Returns the updated
filesystem and the produced archive path as (backup child dir,
archive filename). -/
def farmSave (decode : Bytes → Option SaveGameMeta) (fs : FS) (fullName : String)
    (today : WallDate) (targetDir : Option String) (fileName : Option String) :
    Except Err (FS × String × String) :=
  let tdir := targetDir.getD fullName
  let fs1 := ensureBackupDir fs tdir
  let defaultName : Except Err String :=
    match lookupSaveFile fs fullName "SaveGameInfo" with
    | none => .error .metadataError
    | some b =>
      match decode b with
      | none => .error .metadataError
      | some meta =>
        match mkGameTime meta.year meta.seasonNo meta.day with
        | none => .error .invalidSeason
        | some gt => .ok (archiveName today gt)
  do
  let name ← match fileName with
    | none => defaultName
    | some s => if s = "" then defaultName else .ok s
  let sbytes ← match lookupSaveFile fs fullName fullName with
    | none => .error .ioFailure
    | some b => .ok b
  let mbytes ← match lookupSaveFile fs fullName "SaveGameInfo" with
    | none => .error .ioFailure
    | some b => .ok b
  .ok (writeBackupArchive fs1 tdir name [(fullName, sbytes), ("SaveGameInfo", mbytes)],
    tdir, name)

/-! ## Digit-level facts, proved by finite enumeration -/

theorem digitChar_lt_aux :
    ∀ x, x < 10 → ∀ y, y < 10 →
      ((Nat.digitChar x < Nat.digitChar y) ↔ x < y) := by decide

theorem digitChar_lt {x y : Nat} (hx : x < 10) (hy : y < 10) :
    (Nat.digitChar x < Nat.digitChar y) ↔ x < y :=
  digitChar_lt_aux x hx y hy

theorem digitChar_eq_aux :
    ∀ x, x < 10 → ∀ y, y < 10 →
      ((Nat.digitChar x = Nat.digitChar y) ↔ x = y) := by decide

theorem digitChar_eq {x y : Nat} (hx : x < 10) (hy : y < 10) :
    (Nat.digitChar x = Nat.digitChar y) ↔ x = y :=
  digitChar_eq_aux x hx y hy

theorem repr_toList_aux :
    ∀ n, n < 10 → (Nat.repr n).toList = [Nat.digitChar n] := by decide

theorem toDigitsCore_fuel (n : Nat) :
    ∀ (f1 f2 : Nat) (ds : List Char), n < f1 → n < f2 →
      Nat.toDigitsCore 10 f1 n ds = Nat.toDigitsCore 10 f2 n ds := by
  induction n using Nat.strong_induction_on with
  | _ n ih =>
    intro f1 f2 ds h1 h2
    obtain ⟨a, rfl⟩ : ∃ a, f1 = a + 1 := ⟨f1 - 1, by omega⟩
    obtain ⟨b, rfl⟩ : ∃ b, f2 = b + 1 := ⟨f2 - 1, by omega⟩
    simp only [Nat.toDigitsCore]
    by_cases h0 : n / 10 = 0
    · rw [if_pos h0, if_pos h0]
    · rw [if_neg h0, if_neg h0]
      exact ih (n / 10) (by omega) a b _ (by omega) (by omega)

theorem toDigitsCore_append (f : Nat) :
    ∀ (n : Nat) (ds : List Char),
      Nat.toDigitsCore 10 f n ds = Nat.toDigitsCore 10 f n [] ++ ds := by
  induction f with
  | zero => intro n ds; rfl
  | succ a ih =>
    intro n ds
    simp only [Nat.toDigitsCore]
    by_cases h0 : n / 10 = 0
    · rw [if_pos h0, if_pos h0]
      rfl
    · rw [if_neg h0, if_neg h0]
      rw [ih (n / 10) (Nat.digitChar (n % 10) :: ds),
        ih (n / 10) [Nat.digitChar (n % 10)]]
      simp

theorem repr_toList_step (n : Nat) (h : 10 ≤ n) :
    (Nat.repr n).toList = (Nat.repr (n / 10)).toList ++ [Nat.digitChar (n % 10)] := by
  show Nat.toDigitsCore 10 (n + 1) n []
    = Nat.toDigitsCore 10 (n / 10 + 1) (n / 10) [] ++ [Nat.digitChar (n % 10)]
  have hstep : Nat.toDigitsCore 10 (n + 1) n []
      = Nat.toDigitsCore 10 n (n / 10) [Nat.digitChar (n % 10)] := by
    simp only [Nat.toDigitsCore]
    rw [if_neg (by omega)]
  rw [hstep, toDigitsCore_append n (n / 10) [Nat.digitChar (n % 10)],
    toDigitsCore_fuel (n / 10) n (n / 10 + 1) [] (by omega) (by omega)]

theorem pad2_toList {n : Nat} (h : n ≤ 99) :
    (pad2 n).toList = [Nat.digitChar (n / 10), Nat.digitChar (n % 10)] := by
  unfold pad2
  by_cases h10 : n < 10
  · rw [if_pos h10]
    have hx : ("0" ++ Nat.repr n).toList = '0' :: (Nat.repr n).toList := rfl
    rw [hx, repr_toList_aux n h10,
      show n / 10 = 0 by omega, show n % 10 = n by omega]
    rfl
  · rw [if_neg h10]
    rw [repr_toList_step n (by omega), repr_toList_aux (n / 10) (by omega)]
    rfl

theorem pad4_toList {n : Nat} (h : n ≤ 9999) :
    (pad4 n).toList = [Nat.digitChar (n / 1000), Nat.digitChar (n / 100 % 10),
      Nat.digitChar (n / 10 % 10), Nat.digitChar (n % 10)] := by
  unfold pad4
  by_cases h1 : n < 10
  · rw [if_pos h1]
    have hx : ("000" ++ Nat.repr n).toList = '0' :: '0' :: '0' :: (Nat.repr n).toList := rfl
    rw [hx, repr_toList_aux n h1, show n / 1000 = 0 by omega,
      show n / 100 % 10 = 0 by omega, show n / 10 % 10 = 0 by omega,
      show n % 10 = n by omega]
    rfl
  · rw [if_neg h1]
    by_cases h2 : n < 100
    · rw [if_pos h2]
      have hx : ("00" ++ Nat.repr n).toList = '0' :: '0' :: (Nat.repr n).toList := rfl
      rw [hx, repr_toList_step n (by omega), repr_toList_aux (n / 10) (by omega)]
      rw [show n / 1000 = 0 by omega, show n / 100 % 10 = 0 by omega,
        show n / 10 % 10 = n / 10 by omega]
      rfl
    · rw [if_neg h2]
      by_cases h3 : n < 1000
      · rw [if_pos h3]
        have hx : ("0" ++ Nat.repr n).toList = '0' :: (Nat.repr n).toList := rfl
        rw [hx, repr_toList_step n (by omega), repr_toList_step (n / 10) (by omega),
          repr_toList_aux (n / 10 / 10) (by omega)]
        rw [show n / 1000 = 0 by omega, show n / 100 % 10 = n / 10 / 10 by omega]
        rfl
      · rw [if_neg h3]
        rw [repr_toList_step n (by omega), repr_toList_step (n / 10) (by omega),
          repr_toList_step (n / 10 / 10) (by omega),
          repr_toList_aux (n / 10 / 10 / 10) (by omega)]
        rw [show n / 1000 = n / 10 / 10 / 10 by omega,
          show n / 100 % 10 = n / 10 / 10 % 10 by omega]
        rfl

/-! ## Association-list and filesystem lemmas -/

theorem find_map_overwrite {β : Type} (k : String) (v : β) :
    ∀ (l : List (String × β)), (l.any fun e => e.1 = k) = true →
      ((l.map fun e => if e.1 = k then (k, v) else e).find? fun e => e.1 = k)
        = some (k, v)
  | [], h => by simp at h
  | e :: tl, h => by
    by_cases he : e.1 = k
    · simp [he]
    · simp only [List.map_cons, if_neg he]
      rw [List.find?_cons_of_neg _ (by simp [he])]
      exact find_map_overwrite k v tl (by simpa [he] using h)

theorem find_append_single_self {β : Type} (k : String) (v : β) (l : List (String × β))
    (h : ¬(l.any fun e => e.1 = k) = true) :
    ((l ++ [(k, v)]).find? fun e => e.1 = k) = some (k, v) := by
  have hnone : (l.find? fun e => e.1 = k) = none := by
    rw [List.find?_eq_none]
    intro x hx hk
    exact h (List.any_eq_true.mpr ⟨x, hx, hk⟩)
  simp [List.find?_append, hnone]

theorem getEntry_setEntry_self {β : Type} (l : List (String × β)) (k : String) (v : β) :
    getEntry (setEntry l k v) k = some v := by
  unfold setEntry getEntry
  by_cases h : (l.any fun e => e.1 = k) = true
  · rw [if_pos h, find_map_overwrite k v l h]
    rfl
  · rw [if_neg h, find_append_single_self k v l h]
    rfl

theorem find_map_overwrite_ne {β : Type} (k k' : String) (v : β) (h : k' ≠ k) :
    ∀ (l : List (String × β)),
      ((l.map fun e => if e.1 = k then (k, v) else e).find? fun e => e.1 = k')
        = l.find? fun e => e.1 = k'
  | [] => by simp
  | e :: tl => by
    by_cases he : e.1 = k
    · have h1 : ¬((k : String) = k') := fun hh => h hh.symm
      have h2 : ¬(e.1 = k') := fun hh => h (hh.symm.trans he)
      simp only [List.map_cons, if_pos he]
      rw [List.find?_cons_of_neg _ (by simp [h1]), List.find?_cons_of_neg _ (by simp [h2])]
      exact find_map_overwrite_ne k k' v h tl
    · by_cases he' : e.1 = k'
      · simp only [List.map_cons, if_neg he]
        rw [List.find?_cons_of_pos _ (by simp [he']), List.find?_cons_of_pos _ (by simp [he'])]
      · simp only [List.map_cons, if_neg he]
        rw [List.find?_cons_of_neg _ (by simp [he']), List.find?_cons_of_neg _ (by simp [he'])]
        exact find_map_overwrite_ne k k' v h tl

theorem getEntry_setEntry_ne {β : Type} (l : List (String × β)) (k k' : String) (v : β)
    (h : k' ≠ k) :
    getEntry (setEntry l k v) k' = getEntry l k' := by
  unfold setEntry getEntry
  by_cases ha : (l.any fun e => e.1 = k) = true
  · rw [if_pos ha, find_map_overwrite_ne k k' v h l]
  · rw [if_neg ha]
    have hkk : ¬((k : String) = k') := fun hh => h hh.symm
    have hone : ([(k, v)].find? fun e => e.1 = k') = none := by
      simp [hkk]
    rw [List.find?_append, hone]
    cases l.find? fun e => e.1 = k' <;> rfl

theorem find_map_updfiles_self (p : String) (es : Files) :
    ∀ (l : List SlotDir), (l.any fun d => d.name = p) = true →
      ((l.map fun d =>
          if d.name = p then { d with files := writeAll d.files es } else d).find?
            fun d => d.name = p)
        = (l.find? fun d => d.name = p).map
            fun d => { d with files := writeAll d.files es }
  | [], h => by simp at h
  | d :: tl, h => by
    by_cases hd : d.name = p
    · simp [hd]
    · simp only [List.map_cons, if_neg hd]
      rw [List.find?_cons_of_neg _ (by simp [hd]), List.find?_cons_of_neg _ (by simp [hd])]
      exact find_map_updfiles_self p es tl (by simpa [hd] using h)

theorem find_map_updfiles_ne (p q : String) (es : Files) (hq : q ≠ p) :
    ∀ (l : List SlotDir),
      ((l.map fun d =>
          if d.name = p then { d with files := writeAll d.files es } else d).find?
            fun d => d.name = q)
        = l.find? fun d => d.name = q
  | [] => by simp
  | d :: tl => by
    by_cases hd : d.name = p
    · have h2 : ¬(d.name = q) := fun hh => hq (hh.symm.trans hd)
      simp only [List.map_cons, if_pos hd]
      rw [List.find?_cons_of_neg _ (by simp [h2]),
        List.find?_cons_of_neg _ (by simp [h2])]
      exact find_map_updfiles_ne p q es hq tl
    · by_cases hd' : d.name = q
      · simp only [List.map_cons, if_neg hd]
        rw [List.find?_cons_of_pos _ (by simp [hd']), List.find?_cons_of_pos _ (by simp [hd'])]
      · simp only [List.map_cons, if_neg hd]
        rw [List.find?_cons_of_neg _ (by simp [hd']), List.find?_cons_of_neg _ (by simp [hd'])]
        exact find_map_updfiles_ne p q es hq tl

theorem getSaveFiles_restoreArchive_self (fs : FS) (p : String) (es : Files) :
    getSaveFiles (restoreArchive fs p es) p = writeAll (getSaveFiles fs p) es := by
  unfold restoreArchive getSaveFiles
  by_cases h : (fs.saves.any fun d => d.name = p) = true
  · rw [if_pos h]
    show (((fs.saves.map fun d =>
        if d.name = p then { d with files := writeAll d.files es } else d).find?
          fun d => d.name = p).map fun d => d.files).getD [] = _
    rw [find_map_updfiles_self p es fs.saves h]
    obtain ⟨x, hx, hpx⟩ := List.any_eq_true.mp h
    have hsome : (fs.saves.find? fun d => d.name = p).isSome :=
      List.find?_isSome.mpr ⟨x, hx, hpx⟩
    obtain ⟨d, hd⟩ := Option.isSome_iff_exists.mp hsome
    rw [hd]
    rfl
  · rw [if_neg h]
    have hnone : (fs.saves.find? fun d => d.name = p) = none := by
      rw [List.find?_eq_none]
      intro x hx hp
      exact h (List.any_eq_true.mpr ⟨x, hx, hp⟩)
    show (((fs.saves ++ [(⟨p, true, writeAll [] es⟩ : SlotDir)]).find?
        fun d => d.name = p).map fun d => d.files).getD [] = _
    rw [List.find?_append, hnone]
    simp

theorem getSaveFiles_restoreArchive_ne (fs : FS) (p q : String) (es : Files)
    (hq : q ≠ p) :
    getSaveFiles (restoreArchive fs p es) q = getSaveFiles fs q := by
  unfold restoreArchive getSaveFiles
  by_cases h : (fs.saves.any fun d => d.name = p) = true
  · rw [if_pos h]
    show (((fs.saves.map fun d =>
        if d.name = p then { d with files := writeAll d.files es } else d).find?
          fun d => d.name = q).map fun d => d.files).getD [] = _
    rw [find_map_updfiles_ne p q es hq fs.saves]
  · rw [if_neg h]
    show (((fs.saves ++ [(⟨p, true, writeAll [] es⟩ : SlotDir)]).find?
        fun d => d.name = q).map fun d => d.files).getD [] = _
    have hpq : ¬((p : String) = q) := fun hh => hq hh.symm
    have hone : ([(⟨p, true, writeAll [] es⟩ : SlotDir)].find? fun d => d.name = q) = none := by
      simp [hpq]
    rw [List.find?_append, hone]
    cases fs.saves.find? fun d => d.name = q <;> rfl

theorem find_map_updarch_self (t n : String) (es : Files) :
    ∀ (l : List BackupDir), (l.any fun d => d.name = t) = true →
      ((l.map fun d =>
          if d.name = t then { d with archives := setEntry d.archives n es } else d).find?
            fun d => d.name = t)
        = (l.find? fun d => d.name = t).map
            fun d => { d with archives := setEntry d.archives n es }
  | [], h => by simp at h
  | d :: tl, h => by
    by_cases hd : d.name = t
    · simp [hd]
    · simp only [List.map_cons, if_neg hd]
      rw [List.find?_cons_of_neg _ (by simp [hd]), List.find?_cons_of_neg _ (by simp [hd])]
      exact find_map_updarch_self t n es tl (by simpa [hd] using h)

theorem lookupArchive_writeBackupArchive_self (fs : FS) (t n : String) (es : Files) :
    lookupArchive (writeBackupArchive (ensureBackupDir fs t) t n es) t n = some es := by
  unfold lookupArchive writeBackupArchive ensureBackupDir
  by_cases h : (fs.backups.any fun d => d.name = t) = true
  · rw [if_pos h]
    show ((fs.backups.map fun d =>
        if d.name = t then { d with archives := setEntry d.archives n es } else d).find?
          fun d => d.name = t).bind (fun d => getEntry d.archives n) = _
    rw [find_map_updarch_self t n es fs.backups h]
    obtain ⟨x, hx, hpx⟩ := List.any_eq_true.mp h
    have hsome : (fs.backups.find? fun d => d.name = t).isSome :=
      List.find?_isSome.mpr ⟨x, hx, hpx⟩
    obtain ⟨d, hd⟩ := Option.isSome_iff_exists.mp hsome
    rw [hd]
    show getEntry (setEntry d.archives n es) n = some es
    exact getEntry_setEntry_self d.archives n es
  · rw [if_neg h]
    have hany : ((fs.backups ++ [(⟨t, true, []⟩ : BackupDir)]).any fun d => d.name = t) = true := by
      simp
    show (((fs.backups ++ [(⟨t, true, []⟩ : BackupDir)]).map fun d =>
        if d.name = t then { d with archives := setEntry d.archives n es } else d).find?
          fun d => d.name = t).bind (fun d => getEntry d.archives n) = _
    rw [find_map_updarch_self t n es _ hany]
    have hnone : (fs.backups.find? fun d => d.name = t) = none := by
      rw [List.find?_eq_none]
      intro x hx hp
      exact h (List.any_eq_true.mpr ⟨x, hx, hp⟩)
    rw [List.find?_append, hnone]
    have hsing : (([⟨t, true, []⟩] : List BackupDir).find? fun d => d.name = t)
        = some ⟨t, true, []⟩ := by simp
    rw [hsing]
    simp [getEntry_setEntry_self]

theorem find_slot_first_match :
    ∀ (pre : List SlotDir) (post : List SlotDir) (d : SlotDir) (slot : String),
      (∀ e ∈ pre, ¬(e.isDir = true ∧ slotMatch slot e.name = true)) →
      d.isDir = true → slotMatch slot d.name = true →
      findSaveSlot (pre ++ d :: post) slot = some d
  | [], post, d, slot, _, hd, hm => by
    unfold findSaveSlot
    rw [List.nil_append, List.find?_cons_of_pos _ (by rw [hd, hm]; rfl)]
  | e :: tl, post, d, slot, hpre, hd, hm => by
    unfold findSaveSlot
    rw [List.cons_append, List.find?_cons_of_neg _ (by
      have := hpre e (List.mem_cons_self e tl)
      simpa [Bool.and_eq_true] using this)]
    exact find_slot_first_match tl post d slot
      (fun x hx => hpre x (List.mem_cons_of_mem e hx)) hd hm

theorem pyListGet_seasonNames_isSome (n : Int) :
    (pyListGet seasonNames n).isSome ↔ (-4 ≤ n ∧ n ≤ 3) := by
  unfold pyListGet seasonNames
  have hlen : (((["Spring", "Summer", "Fall", "Winter"] : List String).length : Nat) : Int)
      = 4 := rfl
  have hlen2 : (["Spring", "Summer", "Fall", "Winter"] : List String).length = 4 := rfl
  by_cases h0 : (0 : Int) ≤ n
  · rw [if_pos h0, Option.isSome_iff_ne_none, ne_eq, List.getElem?_eq_none_iff, hlen2]
    omega
  · rw [if_neg h0, hlen]
    by_cases h1 : (0 : Int) ≤ 4 + n
    · rw [if_pos h1, Option.isSome_iff_ne_none, ne_eq, List.getElem?_eq_none_iff, hlen2]
      omega
    · rw [if_neg h1]
      constructor
      · intro hh
        simp at hh
      · intro hh
        omega

/-! ## Claim theorems -/

/-- C9: for every filesystem, archive parent-directory name `p` and
archive entry list, `_restore`/`Save.restore` extract all entries into
the `Saves` root joined with `p` (creating or overwriting files there),
leave every other save directory unchanged, and leave the `Backup` root
untouched; the embedding's signature shows no independent destination
parameter exists. -/
theorem restore_destination_is_saves_slash_parent (fs : FS) (p : String) (es : Files) :
    getSaveFiles (restoreArchive fs p es) p = writeAll (getSaveFiles fs p) es
    ∧ (∀ q, q ≠ p → getSaveFiles (restoreArchive fs p es) q = getSaveFiles fs q)
    ∧ (restoreArchive fs p es).backups = fs.backups :=
  ⟨getSaveFiles_restoreArchive_self fs p es,
   fun q hq => getSaveFiles_restoreArchive_ne fs p q es hq,
   by unfold restoreArchive; split <;> rfl⟩

theorem restore_destination_is_saves_slash_parent_witness :
    getSaveFiles (restoreArchive ⟨[⟨"Abby_42", true, []⟩], []⟩ "Abby_42"
        [("Abby_42", [7])]) "Abby_42" = [("Abby_42", [7])]
    ∧ getSaveFiles (restoreArchive ⟨[⟨"Abby_42", true, []⟩], []⟩ "Abby_42"
        [("Abby_42", [7])]) "Other_1" = [] := by
  have h := restore_destination_is_saves_slash_parent
    ⟨[⟨"Abby_42", true, []⟩], []⟩ "Abby_42" [("Abby_42", [7])]
  exact ⟨h.1.trans (by decide), (h.2.1 "Other_1" (by decide)).trans (by decide)⟩

/-- C2 (evidence of the code bug): `restore` with an explicit
`file_name` that is not among the slot's archives does not raise — the
`elif` guard fails and the function returns successfully having
restored nothing, contrary to the specified `ArchiveNotFound`
failure. -/
theorem restore_missing_named_archive_is_silent :
    sdsmRestore
        ⟨[], [⟨"Abby_42", true, [("2025-01-01 01-1-01.zip", [("Abby_42", [1])])]⟩]⟩
        "Abby" (some "2025-01-02 01-1-02.zip")
      = .ok
        (⟨[], [⟨"Abby_42", true, [("2025-01-01 01-1-01.zip", [("Abby_42", [1])])]⟩]⟩,
         none) := by
  rfl

/-- C10: `Farm.save` called with the explicit empty string as
`file_name` behaves identically (same archive path, same archive
contents, same resulting filesystem) to `Farm.save` called without a
`file_name`, because `file_name or <derived>` replaces the empty string
by the derived name. -/
theorem backup_empty_filename_equals_no_filename
    (decode : Bytes → Option SaveGameMeta) (fs : FS) (fullName : String)
    (today : WallDate) (targetDir : Option String) :
    farmSave decode fs fullName today targetDir (some "")
      = farmSave decode fs fullName today targetDir none := rfl

/-- C3 (counterexample to the claim as stated): in the name dialect the
capitalised season name `"Spring"` — inside the claimed set
`{Spring, Summer, Fall, Winter}` — fails to parse (the dict keys are
lower-case), and in the numeric dialect the index `-1` — outside the
claimed set `{0,1,2,3}` — parses successfully (Python negative list
indexing). -/
theorem season_claimed_sets_counterexample :
    seasonDigit "Spring" = none ∧ (mkGameTime 1 (-1) 5).isSome = true := by
  constructor
  · rfl
  · rfl

/-- C3 (amended): the name dialect accepts exactly the lower-case
season names `{spring, summer, fall, winter}` (case-sensitively), and
the numeric dialect accepts exactly the integer indices `-4 ≤ n ≤ 3`
(Python list indexing counts negative indices from the back); every
other value fails with the season error (`KeyError`/`IndexError`). -/
theorem season_parse_failure_domains :
    (∀ s : String, (seasonDigit s).isSome
        ↔ (s = "spring" ∨ s = "summer" ∨ s = "fall" ∨ s = "winter"))
    ∧ (∀ y n d : Int, (mkGameTime y n d).isSome ↔ (-4 ≤ n ∧ n ≤ 3)) := by
  constructor
  · intro s
    constructor
    · intro h
      by_contra hc
      push_neg at hc
      obtain ⟨c1, c2, c3, c4⟩ := hc
      simp [seasonDigit, c1, c2, c3, c4] at h
    · rintro (rfl | rfl | rfl | rfl) <;> rfl
  · intro y n d
    unfold mkGameTime
    rw [Option.isSome_map']
    exact pyListGet_seasonNames_isSome n

theorem log2floorAux_le (fuel : Nat) :
    ∀ n : Nat, 1 ≤ n → n < 2 ^ fuel → 2 ^ log2floorAux fuel n ≤ n := by
  induction fuel with
  | zero =>
    intro n h1 h2
    simp at h2
    omega
  | succ f ih =>
    intro n h1 h2
    unfold log2floorAux
    by_cases hn : n ≤ 1
    · rw [if_pos hn]
      simpa using h1
    · rw [if_neg hn]
      have hf : n / 2 < 2 ^ f := by
        rw [pow_succ] at h2
        omega
      have := ih (n / 2) (by omega) hf
      rw [pow_succ]
      omega

theorem log2floor_le (n : Nat) (h1 : 1 ≤ n) (h2 : n < 2 ^ 1100) :
    2 ^ log2floor n ≤ n :=
  log2floorAux_le 1100 n h1 h2

theorem rheDiv_spec (a b : Nat) (hb : 0 < b) :
    2 * ((b * rheDiv a b : Int) - a).natAbs ≤ b := by
  obtain ⟨q, r, rfl, hr⟩ : ∃ q r, a = b * q + r ∧ r < b :=
    ⟨a / b, a % b, (Nat.div_add_mod a b).symm, Nat.mod_lt a hb⟩
  have hdiv : (b * q + r) / b = q := by
    rw [Nat.mul_add_div hb, Nat.div_eq_of_lt hr, Nat.add_zero]
  have hmod : (b * q + r) % b = r := by
    rw [Nat.mul_add_mod, Nat.mod_eq_of_lt hr]
  unfold rheDiv
  rw [hdiv, hmod]
  split_ifs with h1 h2 h3
  · rw [show (b : Int) * (q : Int) - ((b * q + r : Nat) : Int) = -(r : Int) by
      push_cast; ring]
    omega
  · rw [show (b : Int) * ((q + 1 : Nat) : Int) - ((b * q + r : Nat) : Int)
        = (b : Int) - (r : Int) by push_cast; ring]
    omega
  · rw [show (b : Int) * (q : Int) - ((b * q + r : Nat) : Int) = -(r : Int) by
      push_cast; ring]
    omega
  · rw [show (b : Int) * ((q + 1 : Nat) : Int) - ((b * q + r : Nat) : Int)
        = (b : Int) - (r : Int) by push_cast; ring]
    omega

theorem rheDiv_eq_of_close (a b r : Nat) (hb : 0 < b)
    (h : 2 * ((b * r : Int) - a).natAbs < b) : rheDiv a b = r := by
  obtain ⟨q, rem, rfl, hrem⟩ : ∃ q rem, a = b * q + rem ∧ rem < b :=
    ⟨a / b, a % b, (Nat.div_add_mod a b).symm, Nat.mod_lt a hb⟩
  have hdiv : (b * q + rem) / b = q := by
    rw [Nat.mul_add_div hb, Nat.div_eq_of_lt hrem, Nat.add_zero]
  have hmod : (b * q + rem) % b = rem := by
    rw [Nat.mul_add_mod, Nat.mod_eq_of_lt hrem]
  have hcast : (b : Int) * (r : Int) - ((b * q + rem : Nat) : Int)
      = (b : Int) * ((r : Int) - (q : Int)) - (rem : Int) := by
    push_cast; ring
  rw [hcast] at h
  have hb' : (0 : Int) < (b : Int) := by exact_mod_cast hb
  have hd0 : 0 ≤ (r : Int) - (q : Int) := by
    by_contra hneg
    push_neg at hneg
    have hmul : (b : Int) * ((r : Int) - (q : Int)) ≤ (b : Int) * (-1) :=
      mul_le_mul_of_nonneg_left (by omega) (le_of_lt hb')
    generalize hT : (b : Int) * ((r : Int) - (q : Int)) = T at hmul h
    omega
  have hd2 : (r : Int) - (q : Int) < 2 := by
    by_contra hge
    push_neg at hge
    have hmul : (b : Int) * 2 ≤ (b : Int) * ((r : Int) - (q : Int)) :=
      mul_le_mul_of_nonneg_left hge (le_of_lt hb')
    generalize hT : (b : Int) * ((r : Int) - (q : Int)) = T at hmul h
    omega
  unfold rheDiv
  rw [hdiv, hmod]
  rcases (show (r : Int) - (q : Int) = 0 ∨ (r : Int) - (q : Int) = 1 by omega) with
    hd | hd
  · rw [hd] at h
    rw [if_pos (by omega)]
    omega
  · rw [hd] at h
    rw [if_neg (by omega), if_pos (by omega)]
    omega

theorem rheDiv_of_dvd (a b : Nat) (hb : 0 < b) (h : b ∣ a) : rheDiv a b = a / b := by
  unfold rheDiv
  rw [Nat.mod_eq_zero_of_dvd h]
  rw [if_pos (by omega)]

/-- The two half-even roundings the code performs — the quotient onto
the grid `1 / P`, then that dyadic value to an integer — land on a
nearest integer to `ms / 1000` whenever the grid is finer than
`1 / 512` (`512 ≤ P`, `P` even). -/
theorem rhe_double_round_nearest (ms k P : Nat) (hP : 512 ≤ P) (hPe : P % 2 = 0) :
    ((1000 * rheDiv (rheDiv (ms * P) 1000) P : Int) - ms).natAbs ≤ 500
    ∧ ((1000 * rheDiv (rheDiv (ms * P) 1000) P : Int) - ms).natAbs
        ≤ ((1000 * k : Int) - ms).natAbs := by
  have hbP : 0 < P := by omega
  obtain ⟨Q, c, rfl, hc⟩ : ∃ q c, ms = 1000 * q + c ∧ c < 1000 :=
    ⟨ms / 1000, ms % 1000, by omega, by omega⟩
  rcases Nat.lt_trichotomy c 500 with hlt | rfl | hgt
  · have hr : rheDiv (rheDiv ((1000 * Q + c) * P) 1000) P = Q := by
      have hcast : (1000 * Q + c) * P = 1000 * (Q * P) + c * P := by ring
      rw [hcast]
      apply rheDiv_eq_of_close _ _ _ hbP
      have hR1 := rheDiv_spec (1000 * (Q * P) + c * P) 1000 (by norm_num)
      have hBle : c * P ≤ 499 * P := Nat.mul_le_mul_right P (by omega)
      have hPQ : ((P : Int)) * ((Q : Int)) = ((Q * P : Nat) : Int) := by
        push_cast; ring
      rw [hPQ]
      generalize hA : Q * P = A at hR1 ⊢
      generalize hB : c * P = B at hR1 hBle ⊢
      generalize hM : rheDiv (1000 * A + B) 1000 = M at hR1 ⊢
      omega
    rw [hr]
    constructor <;> omega
  · have h2 : 500 * P = 1000 * (P / 2) := by omega
    have hcast : (1000 * Q + 500) * P = 1000 * (Q * P + P / 2) := by
      calc (1000 * Q + 500) * P = 1000 * (Q * P) + 500 * P := by ring
        _ = 1000 * (Q * P) + 1000 * (P / 2) := by rw [h2]
        _ = 1000 * (Q * P + P / 2) := by ring
    have hm : rheDiv ((1000 * Q + 500) * P) 1000 = Q * P + P / 2 := by
      rw [hcast, rheDiv_of_dvd _ _ (by norm_num) ⟨Q * P + P / 2, rfl⟩]
      exact Nat.mul_div_cancel_left _ (by norm_num)
    rw [hm]
    have hdiv : (Q * P + P / 2) / P = Q := by
      rw [Nat.mul_comm Q P, Nat.mul_add_div hbP, Nat.div_eq_of_lt (by omega),
        Nat.add_zero]
    have hmod : (Q * P + P / 2) % P = P / 2 := by
      rw [Nat.mul_comm Q P, Nat.mul_add_mod, Nat.mod_eq_of_lt (by omega)]
    unfold rheDiv
    rw [hdiv, hmod]
    rw [if_neg (by omega), if_neg (by omega)]
    rcases Nat.mod_two_eq_zero_or_one Q with hq | hq
    · rw [if_pos hq]
      constructor <;> omega
    · rw [if_neg (by omega)]
      constructor <;> omega
  · have hr : rheDiv (rheDiv ((1000 * Q + c) * P) 1000) P = Q + 1 := by
      have hcast : (1000 * Q + c) * P = 1000 * (Q * P) + c * P := by ring
      rw [hcast]
      apply rheDiv_eq_of_close _ _ _ hbP
      have hR1 := rheDiv_spec (1000 * (Q * P) + c * P) 1000 (by norm_num)
      have hBge : 501 * P ≤ c * P := Nat.mul_le_mul_right P (by omega)
      have hBle : c * P ≤ 999 * P := Nat.mul_le_mul_right P (by omega)
      have hPQ : ((P : Int)) * (((Q + 1 : Nat)) : Int)
          = ((Q * P : Nat) : Int) + (P : Int) := by push_cast; ring
      rw [hPQ]
      generalize hA : Q * P = A at hR1 ⊢
      generalize hB : c * P = B at hR1 hBge hBle ⊢
      generalize hM : rheDiv (1000 * A + B) 1000 = M at hR1 ⊢
      omega
    rw [hr]
    constructor <;> omega

/-- C8 (amended): the playtime parse returns `round(ms / 1000)` seconds,
and for every `millisecondsPlayed` value below `1000 * 2^44` — i.e. for
the first ~557000 years of play, far beyond any reachable save — that
whole number of seconds is a nearest integer to the exact quotient
`ms / 1000`: it is within half a second of it and no other integer
second count is closer.  (At exact half-second ties Python rounds to
the even neighbour, which is one of the two nearest values.)  Beyond
that bound the double rounding through the IEEE-754 binary64 value of
`ms / 1000` can introduce an error above 500 ms, so the original
unrestricted claim is corrected by this domain restriction. -/
theorem played_time_rounds_to_nearest_second (ms k : Nat)
    (hms : ms < 1000 * 2 ^ 44) :
    ∃ r, playedTime ms = some r
      ∧ ((1000 * r : Int) - ms).natAbs ≤ 500
      ∧ ((1000 * r : Int) - ms).natAbs ≤ ((1000 * k : Int) - ms).natAbs := by
  unfold playedTime pyFloatRoundDiv1000
  by_cases hms0 : ms = 0
  · subst hms0
    rw [if_pos rfl]
    exact ⟨0, rfl, by omega, by omega⟩
  · rw [if_neg hms0]
    have hK1 : 1 ≤ 128 * ms / 125 := by omega
    have h44 : (2 : Nat) ^ 44 = 17592186044416 := by norm_num
    have h54 : (2 : Nat) ^ 54 = 18014398509481984 := by norm_num
    have hK54 : 128 * ms / 125 < 2 ^ 54 := by omega
    have hE : log2floor (128 * ms / 125) ≤ 53 := by
      by_contra hgt
      push_neg at hgt
      have hle := log2floor_le (128 * ms / 125) hK1
        (lt_of_lt_of_le hK54 (Nat.pow_le_pow_right (by norm_num) (by norm_num)))
      have hpow : (2 : Nat) ^ 54 ≤ 2 ^ log2floor (128 * ms / 125) :=
        Nat.pow_le_pow_right (by norm_num) (by omega)
      omega
    dsimp only
    rw [if_pos (show log2floor (128 * ms / 125) ≤ 62 by omega)]
    have hP : 512 ≤ 2 ^ (62 - log2floor (128 * ms / 125)) := by
      calc (512 : Nat) = 2 ^ 9 := by norm_num
        _ ≤ 2 ^ (62 - log2floor (128 * ms / 125)) :=
          Nat.pow_le_pow_right (by norm_num) (by omega)
    have hPe : 2 ^ (62 - log2floor (128 * ms / 125)) % 2 = 0 :=
      Nat.mod_eq_zero_of_dvd (dvd_pow_self 2 (by omega))
    have hmain := rhe_double_round_nearest ms k
      (2 ^ (62 - log2floor (128 * ms / 125))) hP hPe
    exact ⟨_, rfl, hmain.1, hmain.2⟩

theorem played_time_rounds_to_nearest_second_witness :
    (1500 : Nat) < 1000 * 2 ^ 44
    ∧ ∃ r, playedTime 1500 = some r
      ∧ ((1000 * r : Int) - (1500 : Nat)).natAbs ≤ 500
      ∧ ((1000 * r : Int) - (1500 : Nat)).natAbs
          ≤ ((1000 * (7 : Nat) : Int) - (1500 : Nat)).natAbs :=
  ⟨by norm_num, played_time_rounds_to_nearest_second 1500 7 (by norm_num)⟩

/-- C8 counterexample: at `ms = 1000 * 2^44 + 501` the binary64 value
of `ms / 1000` is exactly `2^44 + 1/2`, and round-half-even sends it
to `2^44`: the code answers a second count 501 ms away from the exact
quotient although `2^44 + 1` is only 499 ms away, refuting the
unrestricted within-half-a-second / nearest-integer claim. -/
theorem played_time_not_nearest_counterexample :
    playedTime (1000 * 2 ^ 44 + 501) = some (2 ^ 44)
    ∧ 500 < ((1000 * 2 ^ 44 : Int) - ((1000 * 2 ^ 44 + 501 : Nat) : Int)).natAbs
    ∧ ((1000 * (2 ^ 44 + 1) : Int) - ((1000 * 2 ^ 44 + 501 : Nat) : Int)).natAbs
        < ((1000 * 2 ^ 44 : Int) - ((1000 * 2 ^ 44 + 501 : Nat) : Int)).natAbs := by
  refine ⟨by decide, by decide, by decide⟩

/-- C7: slot lookup over the immediate children of a root: (1) when no
child is a directory whose name starts with the logical name followed
by `_`, the engine fails with the slot-not-found error (`restore`
raising `ValueError` is shown); (2) a lone directory `Farmer_123456`
is returned for the query `Farmer`; (3) in general the first matching
directory of the listing is returned. -/
theorem slot_lookup_prefix_underscore :
    (∀ (fs : FS) (slot : String) (fn : Option String),
        (∀ d ∈ fs.backups, ¬(d.isDir = true ∧ slotMatch slot d.name = true)) →
        sdsmRestore fs slot fn = .error .slotNotFound)
    ∧ (∀ (files : Files),
        findSaveSlot [⟨"Farmer_123456", true, files⟩] "Farmer"
          = some ⟨"Farmer_123456", true, files⟩)
    ∧ (∀ (pre post : List SlotDir) (d : SlotDir) (slot : String),
        (∀ e ∈ pre, ¬(e.isDir = true ∧ slotMatch slot e.name = true)) →
        d.isDir = true → slotMatch slot d.name = true →
        findSaveSlot (pre ++ d :: post) slot = some d) := by
  refine ⟨?_, ?_, ?_⟩
  · intro fs slot fn h
    unfold sdsmRestore findBackupSlot
    have hnone : fs.backups.find? (fun d => d.isDir && slotMatch slot d.name) = none := by
      rw [List.find?_eq_none]
      intro d hd hb
      exact h d hd (by simpa [Bool.and_eq_true] using hb)
    rw [hnone]
  · intro files
    rfl
  · exact fun pre post d slot hpre hd hm =>
      find_slot_first_match pre post d slot hpre hd hm

theorem slot_lookup_prefix_underscore_witness :
    sdsmRestore ⟨[], [⟨"SavesBackup", false, []⟩]⟩ "Saves" none = .error .slotNotFound
    ∧ findSaveSlot [⟨"Farmer_123456", true, []⟩] "Farmer"
        = some ⟨"Farmer_123456", true, []⟩
    ∧ findSaveSlot ([⟨"nodir", false, []⟩] ++ ⟨"B_1", true, []⟩ :: [⟨"B_2", true, []⟩])
        "B" = some ⟨"B_1", true, []⟩ := by
  obtain ⟨h1, h2, h3⟩ := slot_lookup_prefix_underscore
  refine ⟨h1 ⟨[], [⟨"SavesBackup", false, []⟩]⟩ "Saves" none ?_, h2 [],
    h3 [⟨"nodir", false, []⟩] [⟨"B_2", true, []⟩] ⟨"B_1", true, []⟩ "B" ?_ rfl (by decide)⟩
  · intro d hd
    simp only [List.mem_singleton] at hd
    subst hd
    decide
  · intro e he
    simp only [List.mem_singleton] at he
    subst he
    decide

theorem writeAll_nil_pair (a b : String) (A B : Bytes) (h : ¬(a = b)) :
    writeAll [] [(a, A), (b, B)] = [(a, A), (b, B)] := by
  simp [writeAll, setEntry, h]

theorem farmSave_default_ok (decode : Bytes → Option SaveGameMeta) (fs : FS)
    (fullName : String) (today : WallDate) (A B : Bytes) (meta : SaveGameMeta)
    (gt : GameTime)
    (hsave : lookupSaveFile fs fullName fullName = some A)
    (hmeta : lookupSaveFile fs fullName "SaveGameInfo" = some B)
    (hdec : decode B = some meta)
    (hgt : mkGameTime meta.year meta.seasonNo meta.day = some gt) :
    farmSave decode fs fullName today none none
      = .ok (writeBackupArchive (ensureBackupDir fs fullName) fullName
          (archiveName today gt) [(fullName, A), ("SaveGameInfo", B)],
        fullName, archiveName today gt) := by
  unfold farmSave
  rw [hmeta, hsave]
  dsimp only
  rw [hdec]
  dsimp only
  rw [hgt]
  rfl

/-- C4: for a slot `Saves/Abby_42/` holding the save-state file
`Abby_42` (contents `A`) and the metadata file `SaveGameInfo`
(contents `B`, decoding to year 1, season index 1 = Summer, day 5), a
backup with no explicit filename produces the archive
`Backup/Abby_42/<today-ISO> 01-2-05.zip` containing exactly the two
entries `Abby_42` and `SaveGameInfo` under their bare names. -/
theorem backup_end_to_end_abby (decode : Bytes → Option SaveGameMeta) (fs : FS)
    (today : WallDate) (A B : Bytes)
    (hsave : lookupSaveFile fs "Abby_42" "Abby_42" = some A)
    (hmeta : lookupSaveFile fs "Abby_42" "SaveGameInfo" = some B)
    (hdec : decode B = some ⟨1, 1, 5⟩) :
    ∃ fs', farmSave decode fs "Abby_42" today none none
        = .ok (fs', "Abby_42", isoDate today ++ " 01-2-05.zip")
      ∧ lookupArchive fs' "Abby_42" (isoDate today ++ " 01-2-05.zip")
        = some [("Abby_42", A), ("SaveGameInfo", B)] := by
  have hname : archiveName today ⟨1, 1, 5⟩ = isoDate today ++ " 01-2-05.zip" := by
    unfold archiveName
    rw [String.append_assoc, String.append_assoc]
    have hlit : " " ++ (GameTime.short ⟨1, 1, 5⟩ ++ ".zip") = " 01-2-05.zip" := by decide
    rw [hlit]
  refine ⟨writeBackupArchive (ensureBackupDir fs "Abby_42") "Abby_42"
      (isoDate today ++ " 01-2-05.zip") [("Abby_42", A), ("SaveGameInfo", B)], ?_, ?_⟩
  · rw [← hname]
    exact farmSave_default_ok decode fs "Abby_42" today A B ⟨1, 1, 5⟩ ⟨1, 1, 5⟩
      hsave hmeta hdec (by decide)
  · exact lookupArchive_writeBackupArchive_self fs "Abby_42"
      (isoDate today ++ " 01-2-05.zip") [("Abby_42", A), ("SaveGameInfo", B)]

theorem backup_end_to_end_abby_witness :
    ∃ fs', farmSave (fun b => if b = [9] then some ⟨1, 1, 5⟩ else none)
        ⟨[⟨"Abby_42", true, [("Abby_42", [1, 2]), ("SaveGameInfo", [9])]⟩], []⟩
        "Abby_42" ⟨2026, 10, 12⟩ none none
        = .ok (fs', "Abby_42", isoDate ⟨2026, 10, 12⟩ ++ " 01-2-05.zip")
      ∧ lookupArchive fs' "Abby_42" (isoDate ⟨2026, 10, 12⟩ ++ " 01-2-05.zip")
        = some [("Abby_42", [1, 2]), ("SaveGameInfo", [9])] :=
  backup_end_to_end_abby (fun b => if b = [9] then some ⟨1, 1, 5⟩ else none)
    ⟨[⟨"Abby_42", true, [("Abby_42", [1, 2]), ("SaveGameInfo", [9])]⟩], []⟩
    ⟨2026, 10, 12⟩ [1, 2] [9] (by decide) (by decide) (by decide)

/-- C5: for every slot whose save-state file (contents `A`) and
metadata file (contents `B`) exist and whose metadata decodes to a
valid game time, `backup` produces an archive whose entries are exactly
`[(fullName, A), ("SaveGameInfo", B)]`, and restoring that archive into
a fresh (empty or absent) copy of the slot directory reproduces exactly
those two files with byte-identical contents and nothing else. -/
theorem backup_then_restore_round_trip (decode : Bytes → Option SaveGameMeta)
    (fs fs2 : FS) (fullName : String) (today : WallDate) (A B : Bytes)
    (meta : SaveGameMeta) (gt : GameTime)
    (hsave : lookupSaveFile fs fullName fullName = some A)
    (hmeta : lookupSaveFile fs fullName "SaveGameInfo" = some B)
    (hdec : decode B = some meta)
    (hgt : mkGameTime meta.year meta.seasonNo meta.day = some gt)
    (hne : fullName ≠ "SaveGameInfo")
    (hfresh : getSaveFiles fs2 fullName = []) :
    ∃ fs1 name,
      farmSave decode fs fullName today none none = .ok (fs1, fullName, name)
      ∧ lookupArchive fs1 fullName name = some [(fullName, A), ("SaveGameInfo", B)]
      ∧ getSaveFiles (restoreArchive fs2 fullName [(fullName, A), ("SaveGameInfo", B)])
          fullName = [(fullName, A), ("SaveGameInfo", B)] := by
  refine ⟨writeBackupArchive (ensureBackupDir fs fullName) fullName
      (archiveName today gt) [(fullName, A), ("SaveGameInfo", B)],
    archiveName today gt,
    farmSave_default_ok decode fs fullName today A B meta gt hsave hmeta hdec hgt,
    lookupArchive_writeBackupArchive_self fs fullName (archiveName today gt)
      [(fullName, A), ("SaveGameInfo", B)], ?_⟩
  rw [getSaveFiles_restoreArchive_self, hfresh]
  exact writeAll_nil_pair fullName "SaveGameInfo" A B hne

theorem backup_then_restore_round_trip_witness :
    ∃ fs1 name,
      farmSave (fun b => if b = [9] then some ⟨1, 1, 5⟩ else none)
          ⟨[⟨"Abby_42", true, [("Abby_42", [1, 2]), ("SaveGameInfo", [9])]⟩], []⟩
          "Abby_42" ⟨2026, 10, 12⟩ none none = .ok (fs1, "Abby_42", name)
      ∧ lookupArchive fs1 "Abby_42" name
          = some [("Abby_42", [1, 2]), ("SaveGameInfo", [9])]
      ∧ getSaveFiles (restoreArchive ⟨[], []⟩ "Abby_42"
            [("Abby_42", [1, 2]), ("SaveGameInfo", [9])]) "Abby_42"
          = [("Abby_42", [1, 2]), ("SaveGameInfo", [9])] :=
  backup_then_restore_round_trip (fun b => if b = [9] then some ⟨1, 1, 5⟩ else none)
    ⟨[⟨"Abby_42", true, [("Abby_42", [1, 2]), ("SaveGameInfo", [9])]⟩], []⟩
    ⟨[], []⟩ "Abby_42" ⟨2026, 10, 12⟩ [1, 2] [9] ⟨1, 1, 5⟩ ⟨1, 1, 5⟩
    (by decide) (by decide) (by decide) (by decide) (by decide) (by decide)

/-! ## Default-restore selection (C6) -/

instance : IsTotal (String × Files) (fun a b => a.1 ≤ b.1) :=
  ⟨fun a b => le_total a.1 b.1⟩

instance : IsTrans (String × Files) (fun a b => a.1 ≤ b.1) :=
  ⟨fun _ _ _ h1 h2 => le_trans h1 h2⟩

/-- C6: whenever the slot's backup directory exists and holds at least
one `*.zip` archive, `restore` without a filename restores the
lexicographically-first (smallest filename) `.zip` entry of the
listing. -/
theorem restore_default_selects_lex_first (fs : FS) (slot : String) (bd : BackupDir)
    (hbd : findBackupSlot fs.backups slot = some bd)
    (hne : zipArchives bd.archives ≠ []) :
    ∃ m, m ∈ zipArchives bd.archives
      ∧ (∀ a ∈ zipArchives bd.archives, m.1 ≤ a.1)
      ∧ sdsmRestore fs slot none = .ok (restoreArchive fs bd.name m.2, some m.1) := by
  have hp : List.Perm (sortArchives (zipArchives bd.archives)) (zipArchives bd.archives) :=
    List.perm_insertionSort _ _
  have hs : List.Sorted (fun x y : String × Files => x.1 ≤ y.1)
      (sortArchives (zipArchives bd.archives)) :=
    List.sorted_insertionSort _ _
  cases hsort : sortArchives (zipArchives bd.archives) with
  | nil =>
    rw [hsort] at hp
    exact absurd (List.Perm.eq_nil hp.symm).symm (fun hh => hne hh.symm)
  | cons m rest =>
    rw [hsort] at hp hs
    refine ⟨m, hp.subset (List.mem_cons_self m rest), ?_, ?_⟩
    · intro a ha
      rcases List.mem_cons.mp (hp.mem_iff.mpr ha) with h | h
      · rw [h]
      · exact List.rel_of_sorted_cons hs a h
    · unfold sdsmRestore
      rw [hbd]
      dsimp only
      rw [hsort]

theorem restore_default_selects_lex_first_witness :
    ∃ m, m ∈ zipArchives [("b.zip", [("f", [2])]), ("a.zip", [("f", [1])]), ("c.txt", [])]
      ∧ (∀ a ∈ zipArchives
            [("b.zip", [("f", [2])]), ("a.zip", [("f", [1])]), ("c.txt", [])], m.1 ≤ a.1)
      ∧ sdsmRestore
          ⟨[], [⟨"Abby_42", true,
            [("b.zip", [("f", [2])]), ("a.zip", [("f", [1])]), ("c.txt", [])]⟩]⟩
          "Abby" none
        = .ok (restoreArchive
            ⟨[], [⟨"Abby_42", true,
              [("b.zip", [("f", [2])]), ("a.zip", [("f", [1])]), ("c.txt", [])]⟩]⟩
            "Abby_42" m.2, some m.1) :=
  restore_default_selects_lex_first
    ⟨[], [⟨"Abby_42", true,
      [("b.zip", [("f", [2])]), ("a.zip", [("f", [1])]), ("c.txt", [])]⟩]⟩
    "Abby" ⟨"Abby_42", true,
      [("b.zip", [("f", [2])]), ("a.zip", [("f", [1])]), ("c.txt", [])]⟩
    (by decide) (by decide)

/-! ## Archive-name ordering (C1) -/

theorem str_toList_append (a b : String) : (a ++ b).toList = a.toList ++ b.toList := rfl

theorem intPad2_toList (n : Int) (h0 : 0 ≤ n) (h99 : n ≤ 99) :
    (intPad2 n).toList = [Nat.digitChar (n.toNat / 10), Nat.digitChar (n.toNat % 10)] := by
  obtain ⟨m, rfl⟩ := Int.eq_ofNat_of_zero_le h0
  have hpad : intPad2 (m : Int) = pad2 m := by
    unfold intPad2 pad2
    by_cases hm : m < 10
    · rw [if_pos ⟨by omega, by exact_mod_cast hm⟩, if_pos hm]
      rfl
    · rw [if_neg (fun hc => hm (by exact_mod_cast hc.2)), if_neg hm]
      rfl
  rw [hpad, pad2_toList (show m ≤ 99 by exact_mod_cast h99)]
  rfl

theorem intStr_season_toList (s : Int) (h0 : 0 ≤ s) (h3 : s ≤ 3) :
    (intStr (s + 1)).toList = [Nat.digitChar (s + 1).toNat] := by
  obtain ⟨m, rfl⟩ := Int.eq_ofNat_of_zero_le h0
  have hstep : (m : Int) + 1 = ((m + 1 : Nat) : Int) := by omega
  rw [hstep]
  show (Nat.repr (m + 1)).toList = [Nat.digitChar (((m + 1 : Nat) : Int)).toNat]
  rw [repr_toList_aux (m + 1) (by omega)]
  rfl

theorem archiveName_toList (t : WallDate) (g : GameTime)
    (ht : t.y ≤ 9999) (hm : t.m ≤ 99) (hd : t.d ≤ 99)
    (hy0 : 0 ≤ g.year) (hy1 : g.year ≤ 99)
    (hs0 : 0 ≤ g.seasonNo) (hs1 : g.seasonNo ≤ 3)
    (hd0 : 0 ≤ g.day) (hd1 : g.day ≤ 99) :
    (archiveName t g).toList =
      Nat.digitChar (t.y / 1000) :: Nat.digitChar (t.y / 100 % 10)
        :: Nat.digitChar (t.y / 10 % 10) :: Nat.digitChar (t.y % 10) :: '-'
        :: Nat.digitChar (t.m / 10) :: Nat.digitChar (t.m % 10) :: '-'
        :: Nat.digitChar (t.d / 10) :: Nat.digitChar (t.d % 10) :: ' '
        :: Nat.digitChar (g.year.toNat / 10) :: Nat.digitChar (g.year.toNat % 10) :: '-'
        :: Nat.digitChar ((g.seasonNo + 1).toNat) :: '-'
        :: Nat.digitChar (g.day.toNat / 10) :: Nat.digitChar (g.day.toNat % 10)
        :: '.' :: 'z' :: 'i' :: 'p' :: [] := by
  unfold archiveName isoDate GameTime.short
  simp only [str_toList_append]
  rw [pad4_toList ht, pad2_toList hm, pad2_toList hd,
    intPad2_toList g.year hy0 hy1, intStr_season_toList g.seasonNo hs0 hs1,
    intPad2_toList g.day hd0 hd1]
  rfl

theorem lex_cons_iff (a b : Char) (cs ds : List Char) :
    List.Lex (fun x y : Char => x < y) (a :: cs) (b :: ds)
      ↔ (a < b ∨ (a = b ∧ List.Lex (fun x y : Char => x < y) cs ds)) := by
  constructor
  · intro h
    cases h with
    | cons h => exact Or.inr ⟨rfl, h⟩
    | rel h => exact Or.inl h
  · rintro (h | ⟨rfl, h⟩)
    · exact List.Lex.rel h
    · exact List.Lex.cons h

theorem lex_nil_nil :
    List.Lex (fun x y : Char => x < y) ([] : List Char) ([] : List Char) ↔ False :=
  ⟨fun h => List.Lex.not_nil_right _ _ h, False.elim⟩

/-- C1 (amended): for creation dates with the `YYYY-MM-DD` fields
inside their zero-padded widths (as every `datetime.date` is) and game
times whose fields are non-negative and inside their zero-padded widths
(game year ≤ 99, season index in 0..3, day ≤ 99), the archive filenames
produced by the naming scheme sort lexicographically exactly in
chronological order of `(creation date, game time)`. -/
theorem archive_names_sort_chronologically (t1 t2 : WallDate) (g1 g2 : GameTime)
    (ht1 : t1.y ≤ 9999) (hm1 : t1.m ≤ 99) (hdd1 : t1.d ≤ 99)
    (ht2 : t2.y ≤ 9999) (hm2 : t2.m ≤ 99) (hdd2 : t2.d ≤ 99)
    (hy01 : 0 ≤ g1.year) (hy11 : g1.year ≤ 99)
    (hs01 : 0 ≤ g1.seasonNo) (hs11 : g1.seasonNo ≤ 3)
    (hd01 : 0 ≤ g1.day) (hd11 : g1.day ≤ 99)
    (hy02 : 0 ≤ g2.year) (hy12 : g2.year ≤ 99)
    (hs02 : 0 ≤ g2.seasonNo) (hs12 : g2.seasonNo ≤ 3)
    (hd02 : 0 ≤ g2.day) (hd12 : g2.day ≤ 99) :
    (archiveName t1 g1 < archiveName t2 g2) ↔ chronLT (t1, g1) (t2, g2) := by
  rw [String.lt_iff_toList_lt]
  show List.Lex (fun x y : Char => x < y) (archiveName t1 g1).toList
      (archiveName t2 g2).toList ↔ _
  rw [archiveName_toList t1 g1 ht1 hm1 hdd1 hy01 hy11 hs01 hs11 hd01 hd11,
    archiveName_toList t2 g2 ht2 hm2 hdd2 hy02 hy12 hs02 hs12 hd02 hd12]
  simp (disch := omega) only [lex_cons_iff, lex_nil_nil, digitChar_lt, digitChar_eq,
    lt_self_iff_false, eq_self_iff_true, true_and, and_true, false_and, and_false,
    false_or, or_false]
  obtain ⟨a1, b1, c1⟩ := t1
  obtain ⟨a2, b2, c2⟩ := t2
  obtain ⟨u1, v1, w1⟩ := g1
  obtain ⟨u2, v2, w2⟩ := g2
  simp only [chronLT, dateLT, gtLT, WallDate.mk.injEq] at *
  omega

/-- C1 (counterexample to the claim as stated): at game year 100 the
`{year:02d}` field overflows its two-digit width, and the produced
filenames no longer sort chronologically: with equal creation dates,
the name for game year 100 sorts before the name for game year 20
although it is chronologically later. -/
theorem archive_name_order_counterexample :
    (archiveName ⟨2026, 10, 12⟩ ⟨100, 1, 1⟩ < archiveName ⟨2026, 10, 12⟩ ⟨20, 1, 1⟩)
    ∧ ¬chronLT (⟨2026, 10, 12⟩, ⟨100, 1, 1⟩) (⟨2026, 10, 12⟩, ⟨20, 1, 1⟩)
    ∧ chronLT (⟨2026, 10, 12⟩, ⟨20, 1, 1⟩) (⟨2026, 10, 12⟩, ⟨100, 1, 1⟩) :=
  ⟨String.lt_iff_toList_lt.mpr (by decide), by decide, by decide⟩

theorem archive_names_sort_chronologically_witness :
    (archiveName ⟨2026, 10, 11⟩ ⟨1, 1, 5⟩ < archiveName ⟨2026, 10, 12⟩ ⟨1, 1, 5⟩)
      ↔ chronLT (⟨2026, 10, 11⟩, ⟨1, 1, 5⟩) (⟨2026, 10, 12⟩, ⟨1, 1, 5⟩) :=
  archive_names_sort_chronologically ⟨2026, 10, 11⟩ ⟨2026, 10, 12⟩ ⟨1, 1, 5⟩ ⟨1, 1, 5⟩
    (by decide) (by decide) (by decide) (by decide) (by decide) (by decide)
    (by decide) (by decide) (by decide) (by decide) (by decide) (by decide)
    (by decide) (by decide) (by decide) (by decide) (by decide) (by decide)

end Sdsm
